import Mathlib

/-!
# Verification of the CokeDwellTimeDashboard reconciliation engine

Shallow embedding of the data-cleaning and reconciliation logic of
`src/dashboard/cleaning_utils.py` and the join/derive block of
`src/dashboard/app.py`.

Modelling conventions:
* Timestamps are integers (seconds since an arbitrary epoch); differences in
  seconds divided by 60 / 3600 give minutes / hours as exact rationals.
  The Python code uses pandas `Timestamp`/`Timedelta`, whose `total_seconds`
  arithmetic is exact at second granularity.
* A raw spreadsheet timestamp cell is `RawTs`: a parseable value, an empty
  (missing / NaN) cell, or a malformed string.  `pd.to_datetime` maps a
  missing cell to `NaT` (here `Option.none`) and raises on a malformed one
  (here the cleaner returns `Except.error`).
* Python `round(x, 2)` rounds half to even.  A value rounded to two decimal
  places is an exact multiple of 1/100, so the rounded columns
  (`Load Time (minutes)`, `Dwell Time (Hours)`) are encoded losslessly as
  integers in hundredths of a unit: `round2cent p q` is
  `100 * round(p / q, 2)`, computed with exact integer arithmetic.
* Identifier columns (`Order #`, `Shipment #`, `SAP Delivery # (Order#)`,
  `SHIPMENT_ID`) are read with `dtype=str` in `app.py`; they are modelled as
  `String` (assumed present), other kept cells as `Option` values where the
  source can hold NaN.
-/

/-- A raw timestamp cell of an uploaded spreadsheet. -/
inductive RawTs where
  /-- A cell `pd.to_datetime` parses to this instant (seconds since epoch). -/
  | valid (t : ℤ)
  /-- An empty cell: `pd.to_datetime` yields `NaT`. -/
  | missing
  /-- A malformed cell: `pd.to_datetime` raises. -/
  | malformed
deriving DecidableEq, Repr

/-- Result of `pd.to_datetime` on a cell that does not raise: `NaT` is `none`. -/
def RawTs.toOpt : RawTs → Option ℤ
  | .valid t => some t
  | .missing => none
  | .malformed => none

/-- Whether `pd.to_datetime` would accept the cell without raising. -/
def RawTs.parses : RawTs → Bool
  | .malformed => false
  | _ => true

/-- Round the fraction `p / q` (with `q > 0`) to the nearest integer, half
to even, as Python's `round` does — in exact integer arithmetic: `f` is the
floor of `p / q` and `r2 = 2 * q * (p/q - f)` compares the fractional part
against 1/2. -/
def roundHalfEvenInt (p q : ℤ) : ℤ :=
  let f := p.fdiv q
  let r2 := 2 * (p - f * q)
  if r2 < q then f
  else if q < r2 then f + 1
  else if f % 2 = 0 then f else f + 1

/-- The value `100 * round(p / q, 2)`: round-to-two-decimals of the exact
fraction `p / q`, encoded in hundredths. -/
def round2cent (p q : ℤ) : ℤ := roundHalfEvenInt (100 * p) q

theorem roundHalfEvenInt_nonneg {p q : ℤ} (hp : 0 ≤ p) (hq : 0 < q) :
    0 ≤ roundHalfEvenInt p q := by
  unfold roundHalfEvenInt
  have hf : 0 ≤ p.fdiv q := Int.fdiv_nonneg hp (le_of_lt hq)
  dsimp only
  split
  · exact hf
  · split
    · omega
    · split
      · exact hf
      · omega

theorem roundHalfEvenInt_zero {q : ℤ} (hq : 0 < q) :
    roundHalfEvenInt 0 q = 0 := by
  unfold roundHalfEvenInt
  rw [Int.zero_fdiv]
  simp [hq]

theorem round2cent_nonneg {p q : ℤ} (hp : 0 ≤ p) (hq : 0 < q) :
    0 ≤ round2cent p q :=
  roundHalfEvenInt_nonneg (by omega) hq

theorem round2cent_zero {q : ℤ} (hq : 0 < q) : round2cent 0 q = 0 := by
  unfold round2cent
  rw [show (100 : ℤ) * 0 = 0 by omega]
  exact roundHalfEvenInt_zero hq

/-! ## Shift Calendar Resolver (`get_shift` in `cleaning_utils.py`) -/

/-- One row of `Shift Calendar 2024.csv`: a date and the shift labels of the
columns named `1` and `2`. -/
structure CalRow where
  date : ℤ
  slot1 : String
  slot2 : String
deriving DecidableEq, Repr

/-- Python `create_datetime.date()`: the calendar day of a timestamp (floor to days). -/
def dateOf (t : ℤ) : ℤ := t.fdiv 86400

/-- Python `create_datetime.hour`: the hour-of-day of a timestamp, in `[0, 24)`. -/
def hourOf (t : ℤ) : ℤ := (t.emod 86400) / 3600

/-- The resolver `get_shift` (defined identically in `clean_activity_tracker` and
`clean_trailer_activity`): pick column "1" when the hour is in `[7,19)`,
else column "2", look the date up in the shift calendar, and return the
first match's value, or `None` when the date is absent. -/
def get_shift (cal : List CalRow) (t : ℤ) : Option String :=
  match cal.find? (fun row => decide (row.date = dateOf t)) with
  | some row => some (if 7 ≤ hourOf t ∧ hourOf t < 19 then row.slot1 else row.slot2)
  | none => none

/-! ## `sort_values` + `drop_duplicates(keep="first")`

Both `clean_order_view` and `clean_trailer_activity` sort by
(key ascending, timestamp descending) and keep the first row per key.
pandas `sort_values` places NaT last for either sort direction
(keyword argument na_position, default "last"), and multi-key sorts are stable lexicographic sorts.
We model the comparison as a relation and the sort as Mathlib's (stable)
insertion sort. -/

section SortDedup

variable {α : Type} (ship : α → String) (ts : α → Option ℤ)

/-- Whether `a` sorts no later than `b` under (timestamp descending, NaT last):
two values compare by `≥`, a value precedes NaT, NaT ties with NaT. -/
def tsGeB : Option ℤ → Option ℤ → Bool
  | some x, some y => decide (y ≤ x)
  | some _, none => true
  | none, some _ => false
  | none, none => true

/-- The pandas multi-key comparison: key ascending, then timestamp
descending with NaT last.  Keys compare lexicographically; the comparison
is phrased on the character lists, which is the same ordering as `String`'s
own. -/
def rowLe (a b : α) : Prop :=
  (ship a).data < (ship b).data ∨
    (ship a = ship b ∧ tsGeB (ts a) (ts b) = true)

instance : DecidableRel (rowLe ship ts) := fun _ _ => by
  unfold rowLe; infer_instance

theorem tsGeB_total (x y : Option ℤ) : tsGeB x y = true ∨ tsGeB y x = true := by
  rcases x with _ | x <;> rcases y with _ | y <;> simp [tsGeB] <;> omega

theorem tsGeB_trans {x y z : Option ℤ} (h₁ : tsGeB x y = true)
    (h₂ : tsGeB y z = true) : tsGeB x z = true := by
  rcases x with _ | x <;> rcases y with _ | y <;> rcases z with _ | z <;>
    simp_all [tsGeB] <;> omega

instance : IsTotal α (rowLe ship ts) := by
  constructor
  intro a b
  rcases lt_trichotomy (ship a).data (ship b).data with h | h | h
  · exact Or.inl (Or.inl h)
  · have he : ship a = ship b := String.ext h
    rcases tsGeB_total (ts a) (ts b) with ht | ht
    · exact Or.inl (Or.inr ⟨he, ht⟩)
    · exact Or.inr (Or.inr ⟨he.symm, ht⟩)
  · exact Or.inr (Or.inl h)

instance : IsTrans α (rowLe ship ts) := by
  constructor
  intro a b c hab hbc
  rcases hab with h₁ | ⟨e₁, t₁⟩
  · rcases hbc with h₂ | ⟨e₂, _⟩
    · exact Or.inl (h₁.trans h₂)
    · exact Or.inl (e₂ ▸ h₁)
  · rcases hbc with h₂ | ⟨e₂, t₂⟩
    · exact Or.inl (e₁ ▸ h₂)
    · exact Or.inr ⟨e₁.trans e₂, tsGeB_trans t₁ t₂⟩

theorem rowLe_same_key {a b : α} (h : rowLe ship ts a b)
    (hk : ship a = ship b) : tsGeB (ts a) (ts b) = true := by
  rcases h with h | ⟨_, h⟩
  · exact absurd (congrArg String.data hk) (ne_of_lt h)
  · exact h

/-- Model of `df.sort_values(by=[key, timestamp], ascending=[True, False])`. -/
def sortRows (rows : List α) : List α :=
  rows.insertionSort (rowLe ship ts)

/-- Helper for `drop_duplicates(keep="first")`: walk the frame keeping a
row only when its key has not been seen yet. -/
def dedupSeen : List α → List String → List α
  | [], _ => []
  | x :: xs, seen =>
      if seen.contains (ship x) then dedupSeen xs seen
      else x :: dedupSeen xs (ship x :: seen)

/-- Model of `df.drop_duplicates(subset=key, keep="first")`: keep the first row of
each key, in order of first appearance. -/
def dedupByKey (l : List α) : List α := dedupSeen ship l []

theorem dedupSeen_subset {l : List α} {seen : List String} {r : α}
    (h : r ∈ dedupSeen ship l seen) : r ∈ l := by
  induction l generalizing seen with
  | nil => simp [dedupSeen] at h
  | cons x xs ih =>
      rw [dedupSeen] at h
      split at h
      · exact List.mem_cons_of_mem _ (ih h)
      · rcases List.mem_cons.mp h with rfl | h
        · exact List.mem_cons_self _ _
        · exact List.mem_cons_of_mem _ (ih h)

theorem dedupSeen_not_seen {l : List α} {seen : List String} {r : α}
    (h : r ∈ dedupSeen ship l seen) : seen.contains (ship r) = false := by
  induction l generalizing seen with
  | nil => simp [dedupSeen] at h
  | cons x xs ih =>
      rw [dedupSeen] at h
      split at h
      · exact ih h
      · rename_i hc
        rcases List.mem_cons.mp h with rfl | h
        · simpa using hc
        · have hr := ih h
          simp only [List.contains_cons, Bool.or_eq_false_iff] at hr
          exact hr.2

theorem dedupByKey_subset {l : List α} {r : α}
    (h : r ∈ dedupByKey ship l) : r ∈ l :=
  dedupSeen_subset ship h

theorem dedupSeen_keys_nodup {l : List α} {seen : List String} :
    (dedupSeen ship l seen).Pairwise (fun a b => ship a ≠ ship b) := by
  induction l generalizing seen with
  | nil => simp [dedupSeen]
  | cons x xs ih =>
      rw [dedupSeen]
      split
      · exact ih
      · refine List.pairwise_cons.mpr ⟨?_, ih⟩
        intro b hb
        have hr := dedupSeen_not_seen ship hb
        simp only [List.contains_cons, Bool.or_eq_false_iff] at hr
        intro he
        rw [he] at hr
        simpa using hr.1

theorem dedupByKey_keys_nodup {l : List α} :
    (dedupByKey ship l).Pairwise (fun a b => ship a ≠ ship b) :=
  dedupSeen_keys_nodup ship

/-- In a list whose keys are pairwise distinct, two members with the same
key are the same row. -/
theorem eq_of_mem_keys_nodup {l : List α}
    (hnd : l.Pairwise (fun a b => ship a ≠ ship b))
    {r r' : α} (hr : r ∈ l) (hr' : r' ∈ l) (hk : ship r = ship r') :
    r = r' := by
  induction l with
  | nil => simp at hr
  | cons x xs ih =>
      rcases List.pairwise_cons.mp hnd with ⟨hx, hxs⟩
      rcases List.mem_cons.mp hr with h1 | h1 <;>
        rcases List.mem_cons.mp hr' with h2 | h2
      · exact h1.trans h2.symm
      · subst h1; exact absurd hk (hx _ h2)
      · subst h2; exact absurd hk.symm (hx _ h1)
      · exact ih hxs h1 h2

/-- The row `dedupByKey` keeps for a key sorts no later (under `rowLe`) than
every later row of that key; on a sorted list this makes it the
maximal-timestamp row of its key. -/
theorem tsGeB_refl (x : Option ℤ) : tsGeB x x = true := by
  cases x <;> simp [tsGeB]

theorem dedupSeen_first {l : List α} {seen : List String}
    (hs : l.Pairwise (rowLe ship ts)) {r : α}
    (hr : r ∈ dedupSeen ship l seen) {y : α} (hy : y ∈ l)
    (hk : ship y = ship r) : tsGeB (ts r) (ts y) = true := by
  induction l generalizing seen with
  | nil => simp at hy
  | cons x xs ih =>
      rcases List.pairwise_cons.mp hs with ⟨hx, hxs⟩
      rw [dedupSeen] at hr
      split at hr
      · rename_i hc
        rcases List.mem_cons.mp hy with rfl | hy
        · have := dedupSeen_not_seen ship hr
          rw [← hk] at this
          rw [hc] at this
          cases this
        · exact ih hxs hr hy
      · rcases List.mem_cons.mp hr with rfl | hr
        · rcases List.mem_cons.mp hy with rfl | hy
          · exact tsGeB_refl _
          · exact rowLe_same_key ship ts (hx y hy) hk.symm
        · have hns := dedupSeen_not_seen ship hr
          simp only [List.contains_cons, Bool.or_eq_false_iff] at hns
          have hne : ship x ≠ ship r := by
            intro he
            rw [he] at hns
            simpa using hns.1
          rcases List.mem_cons.mp hy with rfl | hy
          · exact absurd hk hne
          · exact ih hxs hr hy

theorem dedupByKey_first {l : List α}
    (hs : l.Pairwise (rowLe ship ts)) {r : α} (hr : r ∈ dedupByKey ship l)
    {y : α} (hy : y ∈ l) (hk : ship y = ship r) :
    tsGeB (ts r) (ts y) = true :=
  dedupSeen_first ship ts hs hr hy hk

theorem sortRows_perm (rows : List α) :
    List.Perm (sortRows ship ts rows) rows :=
  List.perm_insertionSort _ _

theorem sortRows_sorted (rows : List α) :
    (sortRows ship ts rows).Pairwise (rowLe ship ts) :=
  List.sorted_insertionSort _ _

/-- Combined dedup facts for the sorted-then-deduplicated table: distinct
keys, rows drawn from the input, and each kept row carries the maximal
timestamp of its key. -/
theorem sortDedup_spec (rows : List α) :
    (dedupByKey ship (sortRows ship ts rows)).Pairwise
      (fun a b => ship a ≠ ship b) ∧
    (∀ r ∈ dedupByKey ship (sortRows ship ts rows), r ∈ rows) ∧
    (∀ r ∈ dedupByKey ship (sortRows ship ts rows), ∀ y ∈ rows,
      ship y = ship r → tsGeB (ts r) (ts y) = true) := by
  refine ⟨dedupByKey_keys_nodup ship, ?_, ?_⟩
  · intro r hr
    exact (sortRows_perm ship ts rows).mem_iff.mp (dedupByKey_subset ship hr)
  · intro r hr y hy hk
    exact dedupByKey_first ship ts (sortRows_sorted ship ts rows) hr
      ((sortRows_perm ship ts rows).mem_iff.mpr hy) hk

end SortDedup

theorem dedupSeen_exists_key {α : Type} (ship : α → String) {l : List α}
    {seen : List String} {y : α} (hy : y ∈ l)
    (hns : seen.contains (ship y) = false) :
    ∃ r ∈ dedupSeen ship l seen, ship r = ship y := by
  induction l generalizing seen with
  | nil => simp at hy
  | cons x xs ih =>
      rw [dedupSeen]
      by_cases hk : ship y = ship x
      · rw [if_neg (by rw [← hk, hns]; simp)]
        exact ⟨x, List.mem_cons_self _ _, hk.symm⟩
      · have hy' : y ∈ xs := by
          rcases List.mem_cons.mp hy with rfl | hy
          · exact absurd rfl hk
          · exact hy
        have hns' : (ship x :: seen).contains (ship y) = false := by
          simp only [List.contains_cons, Bool.or_eq_false_iff]
          exact ⟨by simpa using hk, hns⟩
        split
        · exact ih hy' hns
        · rcases ih hy' hns' with ⟨r, hr, he⟩
          exact ⟨r, List.mem_cons_of_mem _ hr, he⟩

/-- Every key of the input still appears in the deduplicated list. -/
theorem dedupByKey_exists_key {α : Type} (ship : α → String) {l : List α}
    {y : α} (hy : y ∈ l) : ∃ r ∈ dedupByKey ship l, ship r = ship y :=
  dedupSeen_exists_key ship hy rfl

/-! ## Activity Cleaner (`clean_activity_tracker`) -/

/-- A raw row of the Activity Tracker upload, after the BOM-stripping rename
and the projection to the two kept columns (`Order Num`, `Create DateTime`).
`Order #` is read with `dtype=str`. -/
structure RawActivityRow where
  orderNum : String
  create : RawTs
deriving DecidableEq, Repr

/-- Fold `l.foldl max x`: maximum of a nonempty list given as head and tail. -/
def listMax (x : ℤ) (l : List ℤ) : ℤ := l.foldl max x

/-- Fold `l.foldl min x`: minimum of a nonempty list given as head and tail. -/
def listMin (x : ℤ) (l : List ℤ) : ℤ := l.foldl min x

theorem listMin_le_init (x : ℤ) (l : List ℤ) : listMin x l ≤ x := by
  induction l generalizing x with
  | nil => exact le_rfl
  | cons a l ih =>
      exact le_trans (ih (min x a)) (min_le_left _ _)

theorem init_le_listMax (x : ℤ) (l : List ℤ) : x ≤ listMax x l := by
  induction l generalizing x with
  | nil => exact le_rfl
  | cons a l ih =>
      exact le_trans (le_max_left _ _) (ih (max x a))

theorem listMin_le_listMax (x : ℤ) (l : List ℤ) : listMin x l ≤ listMax x l :=
  le_trans (listMin_le_init x l) (init_le_listMax x l)

/-- The per-group aggregation
`round((x.max() - x.min()).total_seconds() / 60, 2)` over the parsed
(non-NaT) timestamps of the group, in hundredths of a minute; a group whose
timestamps are all NaT yields `NaT - NaT = NaT`, whose `total_seconds` is
NaN (modelled `none`). -/
def loadMinutes : List ℤ → Option ℤ
  | [] => none
  | t :: ts => some (round2cent (listMax t ts - listMin t ts) 60)

/-- Python `x.startswith(p)`: the characters of `p` lead the string. -/
def isPrefixList : List Char → List Char → Bool
  | [], _ => true
  | _ :: _, [] => false
  | a :: as, b :: bs => a == b && isPrefixList as bs

/-- The `Order Type` lambda of `clean_activity_tracker` (line 29):
`"Shuttle" if x.startswith("02") else ("Customer Load" if x.startswith("04")
else "Unknown")`. -/
def orderType (x : String) : String :=
  if isPrefixList "02".data x.data then "Shuttle"
  else if isPrefixList "04".data x.data then "Customer Load"
  else "Unknown"

/-- One row of the `load_times` output table of `clean_activity_tracker`. -/
structure LoadRecord where
  orderNum : String
  /-- Column `Load Time (minutes)`, in hundredths of a minute -/
  load : Option ℤ
  /-- groupby-`first` (first non-null) shift of the group -/
  shift : Option String
  /-- groupby-`first` order type of the group -/
  otype : Option String
deriving DecidableEq, Repr

/-- The rows of one `groupby("Order Num")` group, in frame order. -/
def activityGroup (rows : List RawActivityRow) (k : String) :
    List RawActivityRow :=
  rows.filter (fun r => decide (r.orderNum = k))

/-- The distinct group keys of the frame (first-appearance order; pandas
sorts group keys, but no claim depends on row order). -/
def activityKeys (rows : List RawActivityRow) : List String :=
  dedupByKey (fun s => s) (rows.map (·.orderNum))

/-- The per-row `Shift` column: `get_shift` applied to the parsed
`Create DateTime` (a NaT propagates to a null shift). -/
def activityShift (cal : List CalRow) (r : RawActivityRow) : Option String :=
  match r.create.toOpt with
  | some t => get_shift cal t
  | none => none

/-- One output row of `clean_activity_tracker` for group key `k`: the load
duration aggregate merged (left, on `Order Num`) with the groupby-`first`
`Shift` and `Order Type` of the same group. -/
def mkLoadRecord (cal : List CalRow) (rows : List RawActivityRow)
    (k : String) : LoadRecord :=
  let g := activityGroup rows k
  { orderNum := k
    load := loadMinutes (g.filterMap (fun r => r.create.toOpt))
    shift := g.findSome? (activityShift cal)
    otype := g.head?.map (fun r => orderType r.orderNum) }

/-- Model of `clean_activity_tracker`: `pd.to_datetime` on `Create DateTime` raises
on any malformed cell (the whole call fails); otherwise one `LoadRecord`
per distinct order identifier. -/
def cleanActivityTracker (rows : List RawActivityRow) (cal : List CalRow) :
    Except String (List LoadRecord) :=
  if rows.all (fun r => r.create.parses) then
    .ok ((activityKeys rows).map (mkLoadRecord cal rows))
  else
    .error "Unable to parse Create DateTime column"

/-! ## Order Cleaner (`clean_order_view`) -/

/-- A raw row of the Order View upload, projected to the five kept columns.
`Shipment #` and `SAP Delivery # (Order#)` are read with `dtype=str`; the
shipment identifier (the sort/dedup key) is modelled as present. -/
structure RawOrderRow where
  /-- Column `Shipment #` -/
  ship : String
  /-- Column `SAP Delivery # (Order#)` -/
  sap : Option String
  /-- Column `Appointment Date` -/
  appt : RawTs
  /-- Column `Carrier` -/
  carrier : Option String
  /-- Column `Appointment Type` -/
  vtype : Option String
deriving DecidableEq, Repr

/-- An order row after `pd.to_datetime` on `Appointment Date`. -/
structure POrderRow where
  ship : String
  sap : Option String
  appt : Option ℤ
  carrier : Option String
  vtype : Option String
deriving DecidableEq, Repr

/-- Parse the `Appointment Date` column of one row (line 37). -/
def parseOrderRow (r : RawOrderRow) : POrderRow :=
  { ship := r.ship, sap := r.sap, appt := r.appt.toOpt,
    carrier := r.carrier, vtype := r.vtype }

/-- Lines 38-39: sort by (`Shipment #` asc, `Appointment Date` desc) and
keep the first row per shipment. -/
def orderSortDedup (rows : List POrderRow) : List POrderRow :=
  dedupByKey (fun r => r.ship) (sortRows (fun r => r.ship) (fun r => r.appt) rows)

/-- Model of `dropna()` over the kept columns (line 44): true when no kept cell is
null. -/
def orderRowComplete (r : POrderRow) : Bool :=
  r.sap.isSome && r.appt.isSome && r.carrier.isSome && r.vtype.isSome

/-- Model of `required_time` (lines 48-52): appointment + 15 minutes for a `LIVE`
visit, else appointment + 24 hours (in seconds). -/
def required_time (appt : ℤ) (vtype : String) : ℤ :=
  if vtype = "LIVE" then appt + 15 * 60 else appt + 24 * 3600

/-- One output row of `clean_order_view` after rename and derivation.  The
presentation columns `Scheduled Date` / `Week` / `Month` (calendar
formatting of the same appointment timestamp) are not modelled; no claim
mentions them. -/
structure OrderRecord where
  /-- Column `Shipment Num` -/
  ship : String
  /-- Column `Order Num` -/
  orderNum : String
  /-- Column `Appointment DateTime` -/
  appt : ℤ
  /-- Column `Required DateTime` -/
  required : ℤ
  carrier : String
  /-- Column `Visit Type` -/
  vtype : String
deriving DecidableEq, Repr

/-- Build the final record from a complete parsed row (the `getD` defaults
are unreachable after the `orderRowComplete` filter). -/
def buildOrderRecord (r : POrderRow) : OrderRecord :=
  let appt := r.appt.getD 0
  let vtype := r.vtype.getD ""
  { ship := r.ship, orderNum := r.sap.getD "", appt := appt,
    required := required_time appt vtype,
    carrier := r.carrier.getD "", vtype := vtype }

/-- Model of `clean_order_view`: parse (raising on a malformed appointment cell),
sort, deduplicate by shipment, drop null rows, derive the required-by
timestamp. -/
def cleanOrderView (rows : List RawOrderRow) :
    Except String (List OrderRecord) :=
  if rows.all (fun r => r.appt.parses) then
    .ok (((orderSortDedup (rows.map parseOrderRow)).filter
            orderRowComplete).map buildOrderRecord)
  else
    .error "Unable to parse Appointment Date column"

/-! ## Trailer Cleaner (`clean_trailer_activity`) -/

/-- A raw row of the Trailer Activity upload, projected to the kept columns
plus the activity-type column used by the initial filter.  `SHIPMENT_ID` is
read with `dtype=str`. -/
structure RawTrailerRow where
  /-- Column `ACTIVITY TYPE ` (note the trailing space in the source column name) -/
  atype : Option String
  /-- Column `CHECKIN DATE TIME` -/
  checkin : RawTs
  /-- Column `CHECKOUT DATE TIME` -/
  checkoutTs : RawTs
  /-- Column `Date/Time` (the loaded timestamp) -/
  loaded : RawTs
  /-- Column `SHIPMENT_ID` -/
  ship : String
deriving DecidableEq, Repr

/-- Line 64 filter (`ACTIVITY TYPE == "CLOSED"`, NaN compares unequal)
composed with the line 69 `dropna()` over the kept raw columns. -/
def trailerEligible (r : RawTrailerRow) : Bool :=
  r.atype == some "CLOSED" &&
  !(r.checkin == RawTs.missing) &&
  !(r.checkoutTs == RawTs.missing) &&
  !(r.loaded == RawTs.missing)

/-- One output row of `clean_trailer_activity` after rename, timestamp
parsing and shift resolution. -/
structure TrailerRecord where
  /-- Column `Shipment Num` -/
  ship : String
  /-- Column `Checkin DateTime` -/
  checkin : ℤ
  /-- Column `Checkout DateTime` -/
  checkoutTs : ℤ
  /-- Column `Loaded DateTime` -/
  loaded : ℤ
  /-- Column `Shift`, resolved from the checkin timestamp -/
  shift : Option String
deriving DecidableEq, Repr

/-- Build the final record from a retained row (the `getD` defaults are
unreachable: the row survived `dropna` and all three parses succeeded). -/
def buildTrailerRecord (cal : List CalRow) (r : RawTrailerRow) :
    TrailerRecord :=
  let ci := r.checkin.toOpt.getD 0
  { ship := r.ship, checkin := ci,
    checkoutTs := r.checkoutTs.toOpt.getD 0,
    loaded := r.loaded.toOpt.getD 0,
    shift := get_shift cal ci }

/-- Model of `clean_trailer_activity`: filter to CLOSED rows, drop null rows, parse
`Date/Time` (raising on malformed cells), sort by (`SHIPMENT_ID` asc,
`Date/Time` desc), keep the first row per shipment, then parse the checkin
and checkout columns of the retained rows (lines 77-78 run after the dedup,
so a malformed checkin on a dropped duplicate does not raise) and resolve
the shift from the checkin timestamp. -/
def cleanTrailerActivity (rows : List RawTrailerRow) (cal : List CalRow) :
    Except String (List TrailerRecord) :=
  let kept := rows.filter trailerEligible
  if kept.all (fun r => r.loaded.parses) then
    let deduped := dedupByKey (fun r => r.ship)
      (sortRows (fun r => r.ship) (fun r => r.loaded.toOpt) kept)
    if deduped.all (fun r => r.checkin.parses && r.checkoutTs.parses) then
      .ok (deduped.map (buildTrailerRecord cal))
    else
      .error "Unable to parse CHECKIN or CHECKOUT DATE TIME column"
  else
    .error "Unable to parse Date/Time column"

/-! ## Reconciliation Engine (`app.py` lines 61-131) -/

/-- One row of `merged_df`: the left join of order records onto trailer
records plus the derived `Compliance` and `Dwell Time (Hours)` columns. -/
structure MergedRow where
  ship : String
  orderNum : String
  appt : ℤ
  required : ℤ
  checkin : Option ℤ
  checkoutTs : Option ℤ
  carrier : String
  vtype : String
  loaded : Option ℤ
  shift : Option String
  compliance : String
  /-- Column `Dwell Time (Hours)`, in hundredths of an hour -/
  dwell : Option ℤ
deriving DecidableEq, Repr

/-- The `compliance` closure (lines 81-85): `"On Time"` when the checkin is
not NaT and `Required DateTime >= Checkin DateTime`, else `"Late"`. -/
def compliance (required : ℤ) (checkin : Option ℤ) : String :=
  match checkin with
  | some c => if c ≤ required then "On Time" else "Late"
  | none => "Late"

/-- The branch of the `dwell_time` closure (lines 96-101) taken when the
loaded timestamp is present: `(loaded - appointment)` hours when on time,
`(loaded - checkin)` hours when late, each `round(..., 2)`; a NaT checkin
propagates through the subtraction to NaN (null); any other compliance
string yields `None`. -/
def dwellRaw (l : ℤ) (checkin : Option ℤ) (appt : ℤ) (comp : String) :
    Option ℤ :=
  if comp = "On Time" then some (round2cent (l - appt) 3600)
  else if comp = "Late" then
    match checkin with
    | some c => some (round2cent (l - c) 3600)
    | none => none
  else none

/-- The `dwell_time` closure (lines 89-108): null when the loaded timestamp
is NaT, otherwise `dwellRaw`, with a negative rounded value replaced by NaN
(null) by the final lines 105-106. -/
def dwell_time (loaded checkin : Option ℤ) (appt : ℤ) (comp : String) :
    Option ℤ :=
  match loaded with
  | none => none
  | some l =>
      match dwellRaw l checkin appt comp with
      | some d => if d < 0 then none else some d
      | none => none

/-- One joined row: order fields always present, trailer fields null when
the order had no trailer match, then the two derived columns computed from
the joined fields exactly as the two row-wise `apply` calls do. -/
def joinRow (o : OrderRecord) (t? : Option TrailerRecord) : MergedRow :=
  let ci := t?.map (fun t => t.checkin)
  let lo := t?.map (fun t => t.loaded)
  let comp := compliance o.required ci
  { ship := o.ship, orderNum := o.orderNum, appt := o.appt,
    required := o.required, checkin := ci,
    checkoutTs := t?.map (fun t => t.checkoutTs),
    carrier := o.carrier, vtype := o.vtype, loaded := lo,
    shift := t?.bind (fun t => t.shift), compliance := comp,
    dwell := dwell_time lo ci o.appt comp }

/-- The SQL `LEFT JOIN` (lines 61-79) with the derived columns: each order
row yields one output row per matching trailer row, or a single row with
null trailer fields when there is no match. -/
def mergedTable (orders : List OrderRecord) (trailers : List TrailerRecord) :
    List MergedRow :=
  orders.bind (fun o =>
    match trailers.filter (fun t => t.ship == o.ship) with
    | [] => [joinRow o none]
    | ms => ms.map (fun t => joinRow o (some t)))

/-- Line 131: `merged_df.dropna(subset="Checkin DateTime")` — the final
pruning of rows with no resolved checkin. -/
def complianceTable (orders : List OrderRecord)
    (trailers : List TrailerRecord) : List MergedRow :=
  (mergedTable orders trailers).filter (fun r => r.checkin.isSome)

/-! ## Helper lemmas -/

theorem cleanOrderView_ok {rows : List RawOrderRow} {out : List OrderRecord}
    (h : cleanOrderView rows = .ok out) :
    out = ((orderSortDedup (rows.map parseOrderRow)).filter
             orderRowComplete).map buildOrderRecord := by
  unfold cleanOrderView at h
  split at h
  · exact (Except.ok.inj h).symm
  · cases h

theorem cleanActivityTracker_ok {rows : List RawActivityRow}
    {cal : List CalRow} {out : List LoadRecord}
    (h : cleanActivityTracker rows cal = .ok out) :
    out = (activityKeys rows).map (mkLoadRecord cal rows) ∧
    rows.all (fun r => r.create.parses) = true := by
  unfold cleanActivityTracker at h
  split at h
  · exact ⟨(Except.ok.inj h).symm, by assumption⟩
  · cases h

theorem cleanTrailerActivity_ok {rows : List RawTrailerRow}
    {cal : List CalRow} {out : List TrailerRecord}
    (h : cleanTrailerActivity rows cal = .ok out) :
    out = (dedupByKey (fun r => r.ship)
            (sortRows (fun r => r.ship) (fun r => r.loaded.toOpt)
              (rows.filter trailerEligible))).map (buildTrailerRecord cal) ∧
    (rows.filter trailerEligible).all (fun r => r.loaded.parses) = true := by
  have h' :
      (if ((rows.filter trailerEligible).all fun r => r.loaded.parses) = true
       then
        if ((dedupByKey (fun r => r.ship)
              (sortRows (fun r => r.ship) (fun r => r.loaded.toOpt)
                (rows.filter trailerEligible))).all
              fun r => r.checkin.parses && r.checkoutTs.parses) = true then
          Except.ok (List.map (buildTrailerRecord cal)
            (dedupByKey (fun r => r.ship)
              (sortRows (fun r => r.ship) (fun r => r.loaded.toOpt)
                (rows.filter trailerEligible))))
        else
          Except.error "Unable to parse CHECKIN or CHECKOUT DATE TIME column"
       else Except.error "Unable to parse Date/Time column") =
        Except.ok out := h
  split at h'
  · split at h'
    · exact ⟨(Except.ok.inj h').symm, by assumption⟩
    · cases h'
  · cases h'

theorem mem_mergedTable_elim {orders : List OrderRecord}
    {trailers : List TrailerRecord} {r : MergedRow}
    (h : r ∈ mergedTable orders trailers) :
    ∃ o ∈ orders,
      (r = joinRow o none ∧
        trailers.filter (fun t => t.ship == o.ship) = []) ∨
      ∃ tr ∈ trailers, tr.ship = o.ship ∧ r = joinRow o (some tr) := by
  rcases List.mem_bind.mp h with ⟨o, ho, hr⟩
  refine ⟨o, ho, ?_⟩
  cases hfil : trailers.filter (fun t => t.ship == o.ship) with
  | nil =>
      rw [hfil] at hr
      simp only [List.mem_singleton] at hr
      exact Or.inl ⟨hr, rfl⟩
  | cons m ms =>
      rw [hfil] at hr
      rcases List.mem_map.mp hr with ⟨tr, htr, rfl⟩
      have htr' : tr ∈ trailers.filter (fun t => t.ship == o.ship) := by
        rw [hfil]; exact htr
      refine Or.inr ⟨tr, List.mem_of_mem_filter htr', ?_, rfl⟩
      have := List.of_mem_filter htr'
      simpa using this

/-- Every merged row carries `Compliance` and `Dwell Time` values computed
by the two row-wise closures from its own joined fields. -/
theorem mergedTable_metrics {orders : List OrderRecord}
    {trailers : List TrailerRecord} {r : MergedRow}
    (h : r ∈ mergedTable orders trailers) :
    r.compliance = compliance r.required r.checkin ∧
    r.dwell = dwell_time r.loaded r.checkin r.appt r.compliance := by
  rcases mem_mergedTable_elim h with ⟨o, _, ⟨rfl, _⟩ | ⟨tr, _, _, rfl⟩⟩ <;>
    exact ⟨rfl, rfl⟩

theorem compliance_onTime_iff (R : ℤ) (C : Option ℤ) :
    compliance R C = "On Time" ↔ ∃ c, C = some c ∧ c ≤ R := by
  cases C with
  | none => simp [compliance]
  | some c =>
      by_cases h : c ≤ R <;> simp [compliance, h]

theorem compliance_cases (R : ℤ) (C : Option ℤ) :
    compliance R C = "On Time" ∨ compliance R C = "Late" := by
  cases C with
  | none => exact Or.inr rfl
  | some c =>
      by_cases h : c ≤ R <;> simp [compliance, h]

theorem dwell_time_some_nonneg {lo ci : Option ℤ} {ap : ℤ} {comp : String}
    {d : ℤ} (h : dwell_time lo ci ap comp = some d) : 0 ≤ d := by
  unfold dwell_time at h
  cases lo with
  | none => cases h
  | some l =>
      dsimp only at h
      cases hq : dwellRaw l ci ap comp with
      | none => rw [hq] at h; cases h
      | some d' =>
          rw [hq] at h
          dsimp only at h
          split at h
          · cases h
          · rename_i hlt
            rw [Option.some.inj h] at hlt
            exact le_of_not_lt hlt

/-! ## Claim theorems -/

/-- C5: for every retained order row, the required-by timestamp is the
appointment plus 15 minutes when the visit type is exactly `LIVE`, and the
appointment plus 24 hours for any other visit type. -/
theorem C5_required_by_rule (oIn : List RawOrderRow) (oOut : List OrderRecord)
    (hok : cleanOrderView oIn = .ok oOut) :
    ∀ rec ∈ oOut,
      rec.required =
        if rec.vtype = "LIVE" then rec.appt + 15 * 60
        else rec.appt + 24 * 3600 := by
  intro rec hrec
  rw [cleanOrderView_ok hok] at hrec
  rcases List.mem_map.mp hrec with ⟨p, _, rfl⟩
  simp only [buildOrderRecord, required_time]

def exOrderIn : List RawOrderRow :=
  [⟨"S1", some "O1", RawTs.valid 1000, some "CX", some "LIVE"⟩]

def exOrderOut : List OrderRecord := [⟨"S1", "O1", 1000, 1900, "CX", "LIVE"⟩]

def exOrderRec : OrderRecord := ⟨"S1", "O1", 1000, 1900, "CX", "LIVE"⟩

theorem C5_required_by_rule_witness :
    exOrderRec.required =
      if exOrderRec.vtype = "LIVE" then exOrderRec.appt + 15 * 60
      else exOrderRec.appt + 24 * 3600 :=
  C5_required_by_rule exOrderIn exOrderOut (by rfl) exOrderRec (by decide)

/-- C6: the shift resolver maps hours in `[7,19)` to the day-shift column
("1") and any other hour to the night-shift column ("2"), looks the
truncated date up in the shift table, and returns `none` (no exception)
when the date is absent. -/
theorem C6_shift_resolution (cal : List CalRow) (t : ℤ) :
    (7 ≤ hourOf t ∧ hourOf t < 19 →
      get_shift cal t =
        (cal.find? (fun row => decide (row.date = dateOf t))).map
          (fun row => row.slot1)) ∧
    (¬(7 ≤ hourOf t ∧ hourOf t < 19) →
      get_shift cal t =
        (cal.find? (fun row => decide (row.date = dateOf t))).map
          (fun row => row.slot2)) ∧
    (cal.find? (fun row => decide (row.date = dateOf t)) = none →
      get_shift cal t = none) := by
  unfold get_shift
  cases cal.find? (fun row => decide (row.date = dateOf t)) with
  | none => exact ⟨fun _ => rfl, fun _ => rfl, fun _ => rfl⟩
  | some row =>
      refine ⟨fun h => ?_, fun h => ?_, fun h => by cases h⟩
      · simp [if_pos h]
      · simp [if_neg h]

def exCal : List CalRow := [⟨0, "A", "B"⟩]

theorem C6_shift_resolution_witness :
    get_shift exCal 28800 = some "A" ∧
    get_shift exCal 72000 = some "B" ∧
    get_shift exCal 432000 = none :=
  ⟨((C6_shift_resolution exCal 28800).1 (by decide)).trans (by decide),
   ((C6_shift_resolution exCal 72000).2.1 (by decide)).trans (by decide),
   (C6_shift_resolution exCal 432000).2.2 (by decide)⟩

theorem isPrefix_04_not_02 {l : List Char}
    (h : isPrefixList "04".data l = true) :
    isPrefixList "02".data l = false := by
  have h4 : "04".data = ['0', '4'] := rfl
  have h2 : "02".data = ['0', '2'] := rfl
  rw [h4] at h
  rw [h2]
  cases l with
  | nil => simp [isPrefixList] at h
  | cons a as =>
      cases as with
      | nil => simp [isPrefixList] at h
      | cons b bs =>
          simp [isPrefixList] at h ⊢
          rcases h with ⟨h1, hb⟩
          intro _
          subst hb
          decide

/-- C8: order-type classification is a pure function of the identifier
prefix: "02" maps to Shuttle, "04" to Customer Load, anything else
(including the empty string and short strings) to Unknown. -/
theorem C8_order_type_classification (s : String) :
    (isPrefixList "02".data s.data = true → orderType s = "Shuttle") ∧
    (isPrefixList "04".data s.data = true → orderType s = "Customer Load") ∧
    (isPrefixList "02".data s.data = false →
      isPrefixList "04".data s.data = false → orderType s = "Unknown") := by
  refine ⟨fun h => ?_, fun h => ?_, fun h1 h2 => ?_⟩
  · simp [orderType, h]
  · have h2 := isPrefix_04_not_02 h
    simp [orderType, h, h2]
  · simp [orderType, h1, h2]

theorem C8_order_type_classification_witness :
    orderType "0212345" = "Shuttle" ∧
    orderType "04999" = "Customer Load" ∧
    orderType "" = "Unknown" ∧
    orderType "0" = "Unknown" ∧
    orderType "7212345" = "Unknown" :=
  ⟨(C8_order_type_classification "0212345").1 (by decide),
   (C8_order_type_classification "04999").2.1 (by decide),
   (C8_order_type_classification "").2.2 (by decide) (by decide),
   (C8_order_type_classification "0").2.2 (by decide) (by decide),
   (C8_order_type_classification "7212345").2.2 (by decide) (by decide)⟩

/-- C9: any malformed creation timestamp in the raw activity input makes
the whole `clean_activity_tracker` call fail with an error; no table is
produced. -/
theorem C9_malformed_ts_fails_batch (aIn : List RawActivityRow)
    (cal : List CalRow) (h : ∃ r ∈ aIn, r.create = RawTs.malformed) :
    (∃ e, cleanActivityTracker aIn cal = .error e) ∧
    ∀ out, cleanActivityTracker aIn cal ≠ .ok out := by
  obtain ⟨r, hr, hm⟩ := h
  have hall : aIn.all (fun r => r.create.parses) = false := by
    refine Bool.eq_false_iff.mpr fun hAll => ?_
    have := List.all_eq_true.mp hAll r hr
    rw [hm] at this
    cases this
  have herr : cleanActivityTracker aIn cal =
      .error "Unable to parse Create DateTime column" := by
    unfold cleanActivityTracker
    rw [hall]
    simp
  refine ⟨⟨_, herr⟩, fun out hout => ?_⟩
  rw [herr] at hout
  cases hout

def exActIn : List RawActivityRow :=
  [⟨"0211111", RawTs.valid 0⟩, ⟨"0211111", RawTs.malformed⟩]

theorem C9_malformed_ts_fails_batch_witness :
    (∃ e, cleanActivityTracker exActIn exCal = .error e) ∧
    ∀ out, cleanActivityTracker exActIn exCal ≠ .ok out :=
  C9_malformed_ts_fails_batch exActIn exCal
    ⟨⟨"0211111", RawTs.malformed⟩, by decide, rfl⟩

theorem dwellRaw_onTime (l : ℤ) (ci : Option ℤ) (ap : ℤ) :
    dwellRaw l ci ap "On Time" = some (round2cent (l - ap) 3600) := by
  unfold dwellRaw
  rw [if_pos rfl]

theorem dwellRaw_late_some (l c ap : ℤ) :
    dwellRaw l (some c) ap "Late" = some (round2cent (l - c) 3600) := by
  unfold dwellRaw
  rw [if_neg (by decide), if_pos rfl]

theorem dwell_time_some_eq (l : ℤ) (ci : Option ℤ) (ap : ℤ) (comp : String) :
    dwell_time (some l) ci ap comp =
      match dwellRaw l ci ap comp with
      | some d => if d < 0 then none else some d
      | none => none := rfl

/-- C1: on the full left join (before the final pruning), `Compliance` is
`"On Time"` exactly when the checkin timestamp is present and the required
timestamp is at or after it (boundary inclusive); in every other case —
including an entirely absent checkin — it is `"Late"`. -/
theorem C1_compliance_rule (orders : List OrderRecord)
    (trailers : List TrailerRecord) :
    ∀ r ∈ mergedTable orders trailers,
      (r.compliance = "On Time" ↔ ∃ c, r.checkin = some c ∧ c ≤ r.required) ∧
      (r.compliance = "On Time" ∨ r.compliance = "Late") ∧
      (r.checkin = none → r.compliance = "Late") := by
  intro r hr
  have hcomp := (mergedTable_metrics hr).1
  refine ⟨?_, ?_, ?_⟩
  · rw [hcomp]
    exact compliance_onTime_iff _ _
  · rw [hcomp]
    exact compliance_cases _ _
  · intro hc
    rw [hcomp, hc]
    rfl

def exOrder : OrderRecord := ⟨"S1", "O1", 0, 900, "CX", "LIVE"⟩

def exTrailer : TrailerRecord := ⟨"S1", 300, 7200, 3600, none⟩

def exMergedRow : MergedRow := joinRow exOrder (some exTrailer)

theorem C1_compliance_rule_witness :
    (exMergedRow.compliance = "On Time" ↔
      ∃ c, exMergedRow.checkin = some c ∧ c ≤ exMergedRow.required) ∧
    (exMergedRow.compliance = "On Time" ∨ exMergedRow.compliance = "Late") ∧
    (exMergedRow.checkin = none → exMergedRow.compliance = "Late") :=
  C1_compliance_rule [exOrder] [exTrailer] exMergedRow (by decide)

/-- C2: on the full left join, `Dwell Time` is null when the loaded
timestamp is absent; otherwise it is `(loaded - appointment)` hours rounded
to two decimals (here in hundredths of an hour) when `Compliance` is
`"On Time"` and `(loaded - checkin)` hours rounded likewise when `"Late"`,
except that a negative rounded value becomes null; consequently every
non-null dwell value is nonnegative. -/
theorem C2_dwell_rule (orders : List OrderRecord)
    (trailers : List TrailerRecord) :
    ∀ r ∈ mergedTable orders trailers,
      (r.loaded = none → r.dwell = none) ∧
      (∀ l, r.loaded = some l → r.compliance = "On Time" →
        (0 ≤ round2cent (l - r.appt) 3600 →
          r.dwell = some (round2cent (l - r.appt) 3600)) ∧
        (round2cent (l - r.appt) 3600 < 0 → r.dwell = none)) ∧
      (∀ l c, r.loaded = some l → r.checkin = some c →
        r.compliance = "Late" →
        (0 ≤ round2cent (l - c) 3600 →
          r.dwell = some (round2cent (l - c) 3600)) ∧
        (round2cent (l - c) 3600 < 0 → r.dwell = none)) ∧
      (∀ d, r.dwell = some d → 0 ≤ d) := by
  intro r hr
  obtain ⟨hcomp, hdwell⟩ := mergedTable_metrics hr
  refine ⟨?_, ?_, ?_, ?_⟩
  · intro hl
    rw [hdwell, hl]
    rfl
  · intro l hl hOT
    rw [hdwell, hl, hOT, dwell_time_some_eq, dwellRaw_onTime]
    dsimp only
    constructor
    · intro h0
      rw [if_neg (not_lt.mpr h0)]
    · intro hneg
      rw [if_pos hneg]
  · intro l c hl hc hLate
    rw [hdwell, hl, hc, hLate, dwell_time_some_eq, dwellRaw_late_some]
    dsimp only
    constructor
    · intro h0
      rw [if_neg (not_lt.mpr h0)]
    · intro hneg
      rw [if_pos hneg]
  · intro d hd
    rw [hdwell] at hd
    exact dwell_time_some_nonneg hd

theorem C2_dwell_rule_witness :
    (exMergedRow.loaded = none → exMergedRow.dwell = none) ∧
    (∀ l, exMergedRow.loaded = some l → exMergedRow.compliance = "On Time" →
      (0 ≤ round2cent (l - exMergedRow.appt) 3600 →
        exMergedRow.dwell = some (round2cent (l - exMergedRow.appt) 3600)) ∧
      (round2cent (l - exMergedRow.appt) 3600 < 0 →
        exMergedRow.dwell = none)) ∧
    (∀ l c, exMergedRow.loaded = some l → exMergedRow.checkin = some c →
      exMergedRow.compliance = "Late" →
      (0 ≤ round2cent (l - c) 3600 →
        exMergedRow.dwell = some (round2cent (l - c) 3600)) ∧
      (round2cent (l - c) 3600 < 0 → exMergedRow.dwell = none)) ∧
    (∀ d, exMergedRow.dwell = some d → 0 ≤ d) :=
  C2_dwell_rule [exOrder] [exTrailer] exMergedRow (by decide)

/-- C4: every row of the final compliance table has a present checkin
timestamp; an order with no matching trailer record produces a `"Late"`,
checkin-less row on the full left join and is excluded entirely from the
final table. -/
theorem C4_unmatched_pruned (orders : List OrderRecord)
    (trailers : List TrailerRecord) :
    (∀ r ∈ complianceTable orders trailers, r.checkin.isSome = true) ∧
    (∀ o ∈ orders, (∀ tr ∈ trailers, tr.ship ≠ o.ship) →
      (∃ r ∈ mergedTable orders trailers,
        r.ship = o.ship ∧ r.checkin = none ∧ r.compliance = "Late") ∧
      (∀ r ∈ complianceTable orders trailers, r.ship ≠ o.ship)) := by
  constructor
  · intro r hr
    have hr' : r ∈ (mergedTable orders trailers).filter
        (fun r => r.checkin.isSome) := hr
    have h := List.of_mem_filter hr'
    exact h
  · intro o ho hnm
    have hfil : trailers.filter (fun t => t.ship == o.ship) = [] := by
      rw [List.filter_eq_nil]
      intro t ht
      simpa using hnm t ht
    constructor
    · refine ⟨joinRow o none, ?_, rfl, rfl, rfl⟩
      apply List.mem_bind.mpr
      refine ⟨o, ho, ?_⟩
      show joinRow o none ∈
        (match trailers.filter (fun t => t.ship == o.ship) with
         | [] => [joinRow o none]
         | ms => ms.map (fun t => joinRow o (some t)))
      rw [hfil]
      exact List.mem_singleton.mpr rfl
    · intro r hr hship
      have hr' : r ∈ (mergedTable orders trailers).filter
          (fun r => r.checkin.isSome) := hr
      have hsome0 := List.of_mem_filter hr'
      have hsome : r.checkin.isSome = true := hsome0
      have hmem : r ∈ mergedTable orders trailers := List.mem_of_mem_filter hr'
      rcases mem_mergedTable_elim hmem with ⟨o', ho', hcase⟩
      rcases hcase with ⟨rfl, _⟩ | ⟨tr, htr, hshipEq, rfl⟩
      · have hnone : (joinRow o' none).checkin = none := rfl
        rw [hnone] at hsome
        simp at hsome
      · exact hnm tr htr (by rw [hshipEq]; exact hship)

def exOrderNoMatch : OrderRecord := ⟨"S9", "O9", 0, 900, "CX", "LIVE"⟩

theorem C4_unmatched_pruned_witness :
    (∀ r ∈ complianceTable [exOrderNoMatch] [exTrailer],
      r.checkin.isSome = true) ∧
    ((∃ r ∈ mergedTable [exOrderNoMatch] [exTrailer],
        r.ship = exOrderNoMatch.ship ∧ r.checkin = none ∧
        r.compliance = "Late") ∧
      (∀ r ∈ complianceTable [exOrderNoMatch] [exTrailer],
        r.ship ≠ exOrderNoMatch.ship)) :=
  ⟨(C4_unmatched_pruned [exOrderNoMatch] [exTrailer]).1,
   (C4_unmatched_pruned [exOrderNoMatch] [exTrailer]).2 exOrderNoMatch
     (by decide) (by decide)⟩

/-- C7: every order identifier of the activity input yields a Load Record;
its duration is `(max - min)` creation timestamp in minutes rounded to two
decimals (here hundredths of a minute) over the group's parsed timestamps,
hence nonnegative whenever non-null, and an order whose single activity
event has a parsed timestamp gets duration exactly 0. -/
theorem C7_load_duration (aIn : List RawActivityRow) (cal : List CalRow)
    (out : List LoadRecord) (hok : cleanActivityTracker aIn cal = .ok out) :
    (∀ y ∈ aIn, ∃ rec ∈ out, rec.orderNum = y.orderNum) ∧
    ∀ rec ∈ out,
      (∀ t ts, (activityGroup aIn rec.orderNum).filterMap
          (fun r => r.create.toOpt) = t :: ts →
        rec.load = some (round2cent (listMax t ts - listMin t ts) 60)) ∧
      (∀ d, rec.load = some d → 0 ≤ d) ∧
      (∀ r₀ t, activityGroup aIn rec.orderNum = [r₀] →
        r₀.create = RawTs.valid t → rec.load = some 0) := by
  obtain ⟨hout, _⟩ := cleanActivityTracker_ok hok
  constructor
  · intro y hy
    have hky : y.orderNum ∈ aIn.map (fun r => r.orderNum) :=
      List.mem_map.mpr ⟨y, hy, rfl⟩
    rcases dedupByKey_exists_key (fun s => s) hky with ⟨k, hk, he⟩
    refine ⟨mkLoadRecord cal aIn k, ?_, he⟩
    rw [hout]
    exact List.mem_map.mpr ⟨k, hk, rfl⟩
  · intro rec hrec
    rw [hout] at hrec
    rcases List.mem_map.mp hrec with ⟨k, _, rfl⟩
    refine ⟨?_, ?_, ?_⟩
    · intro t ts hgrp
      have hgrp' : (activityGroup aIn k).filterMap
          (fun r => r.create.toOpt) = t :: ts := hgrp
      show loadMinutes ((activityGroup aIn k).filterMap
        (fun r => r.create.toOpt)) = _
      rw [hgrp']
      rfl
    · intro d hd
      have hd' : loadMinutes ((activityGroup aIn k).filterMap
          (fun r => r.create.toOpt)) = some d := hd
      cases hv : (activityGroup aIn k).filterMap (fun r => r.create.toOpt) with
      | nil => rw [hv] at hd'; cases hd'
      | cons t ts =>
          rw [hv] at hd'
          have hde := Option.some.inj hd'
          rw [← hde]
          exact round2cent_nonneg
            (by have := listMin_le_listMax t ts; omega) (by omega)
    · intro r₀ t hgrp hval
      have hgrp' : activityGroup aIn k = [r₀] := hgrp
      show loadMinutes ((activityGroup aIn k).filterMap
        (fun r => r.create.toOpt)) = some 0
      rw [hgrp']
      simp only [List.filterMap, hval, RawTs.toOpt]
      show loadMinutes [t] = some 0
      show some (round2cent (listMax t [] - listMin t []) 60) = some 0
      rw [show listMax t [] - listMin t [] = 0 from by
        simp [listMax, listMin]]
      rw [round2cent_zero (by omega)]

def exActOneEvent : List RawActivityRow := [⟨"0477777", RawTs.valid 360⟩]

def exActOneOut : List LoadRecord :=
  [⟨"0477777", some 0, some "B", some "Customer Load"⟩]

theorem C7_load_duration_witness :
    (∀ y ∈ exActOneEvent, ∃ rec ∈ exActOneOut,
      rec.orderNum = y.orderNum) ∧
    ∀ rec ∈ exActOneOut,
      (∀ t ts, (activityGroup exActOneEvent rec.orderNum).filterMap
          (fun r => r.create.toOpt) = t :: ts →
        rec.load = some (round2cent (listMax t ts - listMin t ts) 60)) ∧
      (∀ d, rec.load = some d → 0 ≤ d) ∧
      (∀ r₀ t, activityGroup exActOneEvent rec.orderNum = [r₀] →
        r₀.create = RawTs.valid t → rec.load = some 0) :=
  C7_load_duration exActOneEvent exCal exActOneOut (by rfl)

theorem trailerEligible_elim {r : RawTrailerRow}
    (h : trailerEligible r = true) :
    r.atype = some "CLOSED" ∧ r.checkin ≠ RawTs.missing ∧
    r.checkoutTs ≠ RawTs.missing ∧ r.loaded ≠ RawTs.missing := by
  simp only [trailerEligible, Bool.and_eq_true, beq_iff_eq,
    Bool.not_eq_true', beq_eq_false_iff_ne] at h
  exact ⟨h.1.1.1, h.1.1.2, h.1.2, h.2⟩

theorem RawTs.eq_valid {x : RawTs} (hp : x.parses = true)
    (hm : x ≠ RawTs.missing) : ∃ u, x = RawTs.valid u := by
  cases x with
  | valid t => exact ⟨t, rfl⟩
  | missing => exact absurd rfl hm
  | malformed => cases hp

/-- C3: after cleaning, the order table and the trailer table each hold at
most one row per shipment identifier, and each retained row carries the
maximum appointment (orders) / event (trailers) timestamp among the rows of
its key — for trailers, among the rows surviving the CLOSED filter and the
null drop that precede the deduplication. -/
theorem C3_dedup_keeps_latest (oIn : List RawOrderRow)
    (tIn : List RawTrailerRow) (cal : List CalRow)
    (oOut : List OrderRecord) (tOut : List TrailerRecord)
    (hoOk : cleanOrderView oIn = .ok oOut)
    (htOk : cleanTrailerActivity tIn cal = .ok tOut) :
    (oOut.Pairwise (fun a b => a.ship ≠ b.ship) ∧
      ∀ r ∈ oOut, ∀ y ∈ oIn, y.ship = r.ship →
        ∀ t, y.appt = RawTs.valid t → t ≤ r.appt) ∧
    (tOut.Pairwise (fun a b => a.ship ≠ b.ship) ∧
      ∀ r ∈ tOut, ∀ y ∈ tIn, trailerEligible y = true → y.ship = r.ship →
        ∀ t, y.loaded = RawTs.valid t → t ≤ r.loaded) := by
  have hoEq := cleanOrderView_ok hoOk
  obtain ⟨htEq, htAll⟩ := cleanTrailerActivity_ok htOk
  obtain ⟨hoP, hoSub, hoMax⟩ :=
    sortDedup_spec (fun r : POrderRow => r.ship) (fun r => r.appt)
      (oIn.map parseOrderRow)
  obtain ⟨htP, htSub, htMax⟩ :=
    sortDedup_spec (fun r : RawTrailerRow => r.ship)
      (fun r => r.loaded.toOpt) (tIn.filter trailerEligible)
  constructor
  · constructor
    · rw [hoEq]
      refine List.pairwise_map.mpr ?_
      exact (hoP.sublist (List.filter_sublist _)).imp (fun h => h)
    · intro r hr y hy hkey t hval
      rw [hoEq] at hr
      rcases List.mem_map.mp hr with ⟨p, hpf, rfl⟩
      have hpd : p ∈ dedupByKey (fun r : POrderRow => r.ship)
          (sortRows (fun r => r.ship) (fun r => r.appt)
            (oIn.map parseOrderRow)) := List.mem_of_mem_filter hpf
      have hpc0 := List.of_mem_filter hpf
      have hpc : orderRowComplete p = true := hpc0
      have hpa : p.appt.isSome = true := by
        simp only [orderRowComplete, Bool.and_eq_true] at hpc
        exact hpc.1.1.2
      rcases Option.isSome_iff_exists.mp hpa with ⟨a, ha⟩
      have hra : (buildOrderRecord p).appt = a := by
        simp [buildOrderRecord, ha]
      have hy' : parseOrderRow y ∈ oIn.map parseOrderRow :=
        List.mem_map.mpr ⟨y, hy, rfl⟩
      have hkey' : (parseOrderRow y).ship = p.ship := hkey
      have hts := hoMax p hpd (parseOrderRow y) hy' hkey'
      have hyp : (parseOrderRow y).appt = some t := by
        simp [parseOrderRow, hval, RawTs.toOpt]
      rw [ha, hyp] at hts
      have : t ≤ a := of_decide_eq_true hts
      rw [hra]
      exact this
  · constructor
    · rw [htEq]
      refine List.pairwise_map.mpr ?_
      exact htP.imp (fun h => h)
    · intro r hr y hy helig hkey t hval
      rw [htEq] at hr
      rcases List.mem_map.mp hr with ⟨d, hd, rfl⟩
      have hdk : d ∈ tIn.filter trailerEligible := htSub d hd
      have hdel0 := List.of_mem_filter hdk
      have hdel : trailerEligible d = true := hdel0
      have hdp : d.loaded.parses = true :=
        List.all_eq_true.mp htAll d hdk
      rcases RawTs.eq_valid hdp (trailerEligible_elim hdel).2.2.2
        with ⟨u, hu⟩
      have hru : (buildTrailerRecord cal d).loaded = u := by
        simp [buildTrailerRecord, hu, RawTs.toOpt]
      have hy' : y ∈ tIn.filter trailerEligible :=
        List.mem_filter.mpr ⟨hy, helig⟩
      have hkey' : y.ship = d.ship := hkey
      have hts := htMax d hd y hy' hkey'
      rw [hu, hval] at hts
      have hts' : tsGeB (some u) (some t) = true := hts
      have : t ≤ u := of_decide_eq_true hts'
      rw [hru]
      exact this

def exC3OrdIn : List RawOrderRow :=
  [⟨"S1", some "O1", RawTs.valid 2000, some "C", some "LIVE"⟩,
   ⟨"S1", some "O2", RawTs.valid 1000, some "C", some "LIVE"⟩]

def exC3OrdOut : List OrderRecord := [⟨"S1", "O1", 2000, 2900, "C", "LIVE"⟩]

def exC3TrIn : List RawTrailerRow :=
  [⟨some "CLOSED", RawTs.valid 10, RawTs.valid 99, RawTs.valid 50, "S1"⟩,
   ⟨some "CLOSED", RawTs.valid 20, RawTs.valid 98, RawTs.valid 70, "S1"⟩]

def exC3TrOut : List TrailerRecord := [⟨"S1", 20, 98, 70, some "B"⟩]

theorem C3_dedup_keeps_latest_witness :
    (exC3OrdOut.Pairwise (fun a b => a.ship ≠ b.ship) ∧
      ∀ r ∈ exC3OrdOut, ∀ y ∈ exC3OrdIn, y.ship = r.ship →
        ∀ t, y.appt = RawTs.valid t → t ≤ r.appt) ∧
    (exC3TrOut.Pairwise (fun a b => a.ship ≠ b.ship) ∧
      ∀ r ∈ exC3TrOut, ∀ y ∈ exC3TrIn, trailerEligible y = true →
        y.ship = r.ship → ∀ t, y.loaded = RawTs.valid t → t ≤ r.loaded) :=
  C3_dedup_keeps_latest exC3OrdIn exC3TrIn exCal exC3OrdOut exC3TrOut
    (by rfl) (by rfl)

/-- C10: in the order cleaner, deduplication by shipment (keeping the
latest appointment) runs before null rows are dropped; if the retained row
of a shipment has a null in a kept column, that shipment is absent from the
output entirely, even when an earlier duplicate of the same shipment is
fully populated. -/
theorem C10_dedup_precedes_dropna (oIn : List RawOrderRow)
    (oOut : List OrderRecord) (hok : cleanOrderView oIn = .ok oOut)
    (p : POrderRow) (hp : p ∈ orderSortDedup (oIn.map parseOrderRow))
    (hnull : orderRowComplete p = false) :
    ∀ rec ∈ oOut, rec.ship ≠ p.ship := by
  intro rec hrec
  rw [cleanOrderView_ok hok] at hrec
  rcases List.mem_map.mp hrec with ⟨q, hq, rfl⟩
  have hqd : q ∈ orderSortDedup (oIn.map parseOrderRow) :=
    List.mem_of_mem_filter hq
  have hqc0 := List.of_mem_filter hq
  have hqc : orderRowComplete q = true := hqc0
  intro he
  have he' : q.ship = p.ship := he
  have hqp : q = p :=
    eq_of_mem_keys_nodup (fun r : POrderRow => r.ship)
      (dedupByKey_keys_nodup _) hqd hp he'
  rw [hqp, hnull] at hqc
  cases hqc

def exC10In : List RawOrderRow :=
  [⟨"S1", some "O1", RawTs.valid 2000, none, some "LIVE"⟩,
   ⟨"S1", some "O2", RawTs.valid 1000, some "C", some "LIVE"⟩,
   ⟨"S2", some "O3", RawTs.valid 500, some "C", some "DROP"⟩]

def exC10Out : List OrderRecord := [⟨"S2", "O3", 500, 86900, "C", "DROP"⟩]

def exC10Retained : POrderRow := ⟨"S1", some "O1", some 2000, none, some "LIVE"⟩

def exC10Rec : OrderRecord := ⟨"S2", "O3", 500, 86900, "C", "DROP"⟩

theorem C10_dedup_precedes_dropna_witness :
    exC10Rec.ship ≠ exC10Retained.ship :=
  C10_dedup_precedes_dropna exC10In exC10Out (by rfl) exC10Retained
    (by decide) (by rfl) exC10Rec (by decide)
